import Mathlib

/-!
Verification of the jail shadow-filesystem engine (src/sfs.py, src/jail.py)
against its natural-language specification.

The Python source is shallowly embedded: each relevant routine is translated
into an executable Lean definition over explicit state.  Machine integers are
Nat/Int (mode bits use Nat bitwise masks, as the Python code only masks with
S_IFMT = 0o170000 and S_IMODE = 0o7777); Python floats (st_mtime etc.) are
modelled as rationals, which is faithful for the comparisons with the literal
epsilon 0.5 that the source performs; fallible code returns Except.
-/

/-! ### Python string primitives

The Python code uses `str.startswith`, `str.split`, `str.strip`,
`str.lower`, `str.count` and `len`.  These are modelled over the
character list of a Lean string, so that all of them evaluate inside
the kernel. -/

/-- Whether the first list is an initial segment of the second
(`str.startswith` on the underlying characters). -/
def listLeads : List Char → List Char → Bool
  | [], _ => true
  | _ :: _, [] => false
  | a :: as, b :: bs => a = b && listLeads as bs

/-- Python `s.startswith(pre)`. -/
def pyStartsWith (s pre : String) : Bool := listLeads pre.data s.data

/-- Split a character list on a separator; `splitOnChar c []` is `[[]]`,
matching Python `''.split(c) == ['']`. -/
def splitOnChar (sep : Char) : List Char → List (List Char)
  | [] => [[]]
  | c :: cs =>
    let r := splitOnChar sep cs
    if c = sep then [] :: r
    else
      match r with
      | h :: tl => (c :: h) :: tl
      | [] => [[c]]

/-- Python `s.split(sep)` for a single-character separator. -/
def pySplit (sep : Char) (s : String) : List String :=
  (splitOnChar sep s.data).map String.mk

def isPySpace (c : Char) : Bool := c = ' ' ∨ c = '\t' ∨ c = '\n' ∨ c = '\r'

/-- Python `s.strip()`. -/
def pyStrip (s : String) : String :=
  String.mk (((s.data.dropWhile isPySpace).reverse.dropWhile isPySpace).reverse)

def asciiLower (c : Char) : Char :=
  if c.toNat ≥ 65 ∧ c.toNat ≤ 90 then Char.ofNat (c.toNat + 32) else c

/-- Python `s.lower()` (ASCII; the option strings involved are ASCII). -/
def pyLower (s : String) : String := String.mk (s.data.map asciiLower)

/-- Python `s.count(c)` for a single character. -/
def pyCount (s : String) (c : Char) : Nat := s.data.count c

instance exceptDecEq {ε α : Type} [DecidableEq ε] [DecidableEq α] :
    DecidableEq (Except ε α) := fun x y =>
  match x, y with
  | .error a, .error b =>
    match decEq a b with
    | .isTrue h => .isTrue (h ▸ rfl)
    | .isFalse h => .isFalse (fun hc => h (Except.error.inj hc))
  | .ok a, .ok b =>
    match decEq a b with
    | .isTrue h => .isTrue (h ▸ rfl)
    | .isFalse h => .isFalse (fun hc => h (Except.ok.inj hc))
  | .error _, .ok _ => .isFalse (fun hc => Except.noConfusion hc)
  | .ok _, .error _ => .isFalse (fun hc => Except.noConfusion hc)

namespace Jail

/-! ### The command queue and the try-next counter (jail.py, Jail.parse / Jail.cli_try)

`Jail.parse` runs the queued commands in order:

```
for cmd in cli_list:
    if self.opt_try:
        self.opt_try -= 1
    self.log(cmd.text)
    try:
        cmd()
    except (JailError, OSError), err:
        err.strerror = ('--try ' if self.opt_try else '') + err.strerror
        self.log(err.strerror)
        if not self.opt_try:
            raise
```

`cli_try` (the `--try` command, itself queued) sets `opt_try = 2`.  The
except clause names only `JailError` and `OSError`: a failure of one of
those kinds is logged and swallowed iff `opt_try` is still nonzero after
the decrement.  A failure of any other kind — notably the `ValueError`
raised by the write-policy gate (`Jail.writable`), by a format mismatch
(`Jail.dststat`) or by a symlink loop (`Stat.get`) — is not caught at
all and aborts the run no matter what `opt_try` holds.

A queued command is therefore modelled by whether it is `--try` and, for
ordinary commands, by how executing it ends: success, a failure of a
caught kind (`JailError`/`OSError`), or a failure of an uncaught kind. -/

inductive FailKind where
  /-- the command returns normally -/
  | ok
  /-- the command raises `JailError` or `OSError` — the kinds the loop's
  except clause names -/
  | caught
  /-- the command raises any other exception (`ValueError`,
  `AssertionError`, ...), which the loop does not catch -/
  | uncaught
deriving DecidableEq, Repr

inductive QCmd where
  | tryNext
  | act (fails : FailKind)
deriving DecidableEq, Repr

/-- One pass of the command loop in `Jail.parse`.  `t` is `opt_try`.
Returns `true` when the whole queue is processed, `false` when a failure
aborts the run.  (Nat subtraction `t - 1` coincides with the guarded
decrement `if self.opt_try: self.opt_try -= 1`.)  A caught-kind failure
is swallowed iff the post-decrement counter is nonzero; an uncaught-kind
failure propagates unconditionally. -/
def runQueue : Nat → List QCmd → Bool
  | _, [] => true
  | t, c :: rest =>
    let tAfter := t - 1
    match c with
    | .tryNext => runQueue 2 rest
    | .act .ok => runQueue tAfter rest
    | .act .caught => if tAfter ≠ 0 then runQueue tAfter rest else false
    | .act .uncaught => false

theorem runQueue_low_fail (pre : List QCmd) :
    ∀ (t : Nat) (rest : List QCmd), QCmd.tryNext ∉ pre → t ≤ 1 →
      runQueue t (pre ++ QCmd.act FailKind.caught :: rest) = false := by
  induction pre with
  | nil =>
    intro t rest _ ht
    have h0 : t - 1 = 0 := by omega
    simp [runQueue, h0]
  | cons c pre ih =>
    intro t rest hmem ht
    have hc : c ≠ QCmd.tryNext := by
      intro h; exact hmem (h ▸ List.mem_cons_self c pre)
    have hpre : QCmd.tryNext ∉ pre := fun h => hmem (List.mem_cons_of_mem c h)
    have h0 : t - 1 = 0 := by omega
    match c, hc with
    | .act k, _ =>
      cases k with
      | ok => simpa [runQueue, h0] using ih 0 rest hpre (by omega)
      | caught => simp [runQueue, h0]
      | uncaught => simp [runQueue]

/-- Counterexample to claim C2 as stated: the command immediately after a
queued `--try` fails with an exception outside `(JailError, OSError)` —
e.g. the `ValueError` the write-policy gate raises — and the run aborts
(`false`) instead of continuing with the failure downgraded to a warning
(which would finish the remaining empty queue, `true`). -/
theorem try_uncaught_counterexample :
    runQueue 0 [QCmd.tryNext, QCmd.act FailKind.uncaught] = false ∧
    runQueue 1 ([] : List QCmd) = true := by decide

/-- Claim C2 (amended): for the failure kinds the command loop catches
(`JailError` and `OSError`), the `--try` modifier is one-shot covering
exactly the next queued command: after a queued `--try` runs (setting
`opt_try = 2`), a caught-kind failure of the immediately following
command is downgraded and processing continues with `opt_try = 1`, while
a caught-kind failure of any later command — absent another `--try` —
aborts the run.  A failure of any other kind aborts the run even
immediately after `--try`. -/
theorem try_is_one_shot_for_caught (t : Nat) (k : FailKind) (pre rest rest2 : List QCmd)
    (hpre : QCmd.tryNext ∉ pre) :
    runQueue t (QCmd.tryNext :: QCmd.act FailKind.caught :: rest) = runQueue 1 rest ∧
    runQueue t (QCmd.tryNext :: QCmd.act k :: pre ++ QCmd.act FailKind.caught :: rest2) =
      false ∧
    runQueue t (QCmd.tryNext :: QCmd.act FailKind.uncaught :: rest) = false := by
  refine ⟨by simp [runQueue], ?_, by simp [runQueue]⟩
  cases k with
  | ok => simpa [runQueue] using runQueue_low_fail pre 1 rest2 hpre (by omega)
  | caught => simpa [runQueue] using runQueue_low_fail pre 1 rest2 hpre (by omega)
  | uncaught => simp [runQueue]

theorem try_is_one_shot_for_caught_witness :
    (QCmd.tryNext ∉ ([] : List QCmd)) ∧
    (runQueue 0 [QCmd.tryNext, QCmd.act FailKind.caught] = runQueue 1 [] ∧
     runQueue 0 (QCmd.tryNext :: QCmd.act FailKind.ok ::
       [] ++ QCmd.act FailKind.caught :: []) = false ∧
     runQueue 0 [QCmd.tryNext, QCmd.act FailKind.uncaught] = false) :=
  ⟨by decide, try_is_one_shot_for_caught 0 FailKind.ok [] [] [] (by decide)⟩

end Jail

namespace Priv

/-! ### Privilege-drop wrappers (sfs.py, Stat.setgid / Stat.setuid)

```
@classmethod
def setgid(cls, gid):
    if gid < 1 or gid == os.getegid():
        return
    cmd = 'sg ' + grp.getgrgid(gid).gr_name
    if cls.writable(None, cmd):
        os.setgid(gid)
    return
```
and symmetrically for `setuid` with `os.geteuid()`.  The installed writable
predicate is `Jail.writable`; called with `dstpath = None` it treats the path
as allowed, prints in test/verbose mode, and returns `False` in test mode,
`True` otherwise.  We record whether the writable predicate was consulted and
which id, if any, was passed to the `os.setgid`/`os.setuid` syscall. -/

structure PrivTrace where
  consultedWritable : Bool
  issued : Option Int
deriving DecidableEq, Repr

/-- `Stat.setgid`, traced.  `egid` is `os.getegid()`; `test` is the
config test flag seen by the installed writable predicate. -/
def setgid (test : Bool) (egid gid : Int) : PrivTrace :=
  if gid < 1 ∨ gid = egid then ⟨false, none⟩
  else ⟨true, if test then none else some gid⟩

/-- `Stat.setuid`, traced.  `euid` is `os.geteuid()`. -/
def setuid (test : Bool) (euid uid : Int) : PrivTrace :=
  if uid < 1 ∨ uid = euid then ⟨false, none⟩
  else ⟨true, if test then none else some uid⟩

/-- Claim C10: `Stat.setuid(uid)` and `Stat.setgid(gid)` are conditional
no-ops: when the id is below 1 or equals the current effective id, the call
returns without consulting the writable predicate and without a syscall;
otherwise the writable predicate is consulted and the syscall is issued
exactly when it returns true (that is, when not in test mode). -/
theorem setuid_setgid_guard (test : Bool) (euid uid egid gid : Int) :
    ((uid < 1 ∨ uid = euid) → setuid test euid uid = ⟨false, none⟩) ∧
    (¬(uid < 1 ∨ uid = euid) →
      setuid test euid uid = ⟨true, if test then none else some uid⟩) ∧
    ((gid < 1 ∨ gid = egid) → setgid test egid gid = ⟨false, none⟩) ∧
    (¬(gid < 1 ∨ gid = egid) →
      setgid test egid gid = ⟨true, if test then none else some gid⟩) := by
  refine ⟨fun h => ?_, fun h => ?_, fun h => ?_, fun h => ?_⟩ <;>
    simp [setuid, setgid, h]

theorem setuid_setgid_guard_witness :
    Priv.setuid false 10 0 = ⟨false, none⟩ ∧
    Priv.setuid false 10 20 = ⟨true, some 20⟩ ∧
    Priv.setgid false 10 10 = ⟨false, none⟩ ∧
    Priv.setgid false 10 7 = ⟨true, some 7⟩ := by
  refine ⟨(setuid_setgid_guard false 10 0 10 7).1 (by decide), ?_,
    (setuid_setgid_guard false 10 20 10 10).2.2.1 (by decide), ?_⟩
  · simpa using (setuid_setgid_guard false 10 20 10 10).2.1 (by decide)
  · simpa using (setuid_setgid_guard false 10 20 10 7).2.2.2 (by decide)

end Priv

namespace Binds

/-! ### Bind-mount option computation (jail.py, Jail.bindopts)

```
def bindopts(self, srcpath, bindopts=None):
    if srcpath:
        opts = set(('noexec', 'ro', 'nosuid', 'remount', 'bind', 'noatime'))
    else:
        srcpath = ''
        opts = set(('exec', 'rw', 'suid', 'remount', 'noatime'))
    bindopts = (bindopts or 'auto').lower()
    if bindopts == 'auto':
        if srcpath.startswith(JAILHOME):
            bindopts = 'exec,ro'
        elif self.cfg.writepath_rx.match(srcpath):
            bindopts = 'noexec,rw'
        else:
            bindopts = 'noexec,ro'
    for opt in (s.strip() for s in bindopts.split(',')):
        if not opt or opt == 'suid':
            continue
        if opt == 'rw':
            opts.discard('ro')
        elif opt == 'ro':
            opts.discard('rw')
        elif opt.startswith('no'):
            opts.discard(opt[2:])
        else:
            opts.discard('no' + opt)
        opts.add(opt)
    return opts
```
`jailhome` abstracts the environment-derived `JAILHOME` prefix and
`writeAllows` abstracts `self.cfg.writepath_rx.match`. -/

/-- Apply one comma-separated option token to the option set
(the loop body of `Jail.bindopts`). -/
def applyOpt (opts : Finset String) (opt : String) : Finset String :=
  if opt = "" ∨ opt = "suid" then opts
  else if opt = "rw" then insert opt (opts.erase "ro")
  else if opt = "ro" then insert opt (opts.erase "rw")
  else if pyStartsWith opt "no" then insert opt (opts.erase (String.mk (opt.data.drop 2)))
  else insert opt (opts.erase ("no" ++ opt))

/-- `Jail.bindopts`.  A `none` or empty `bo` means `auto`
(Python `bindopts or 'auto'`). -/
def bindopts (jailhome : String) (writeAllows : String → Bool)
    (srcpath : String) (bo : Option String) : Finset String :=
  let opts : Finset String :=
    if srcpath = "" then {"exec", "rw", "suid", "remount", "noatime"}
    else {"noexec", "ro", "nosuid", "remount", "bind", "noatime"}
  let raw := match bo with
    | none => "auto"
    | some s => if s = "" then "auto" else s
  let low := pyLower raw
  let eff :=
    if pyStartsWith srcpath jailhome then "exec,ro"
    else if writeAllows srcpath then "noexec,rw"
    else "noexec,ro"
  let eff := if low = "auto" then eff else low
  (pySplit ',' eff).foldl (fun acc s => applyOpt acc (pyStrip s)) opts

/-- Claim C5: for every non-empty source path under the jail home prefix,
`bindopts(srcpath, "auto")` is exactly the set
`(exec, ro, nosuid, remount, bind, noatime)`. -/
theorem bindopts_auto_jailhome (jailhome : String) (writeAllows : String → Bool)
    (srcpath : String) (hne : srcpath ≠ "")
    (hpre : pyStartsWith srcpath jailhome = true) :
    bindopts jailhome writeAllows srcpath (some "auto") =
      {"exec", "ro", "nosuid", "remount", "bind", "noatime"} := by
  simp only [bindopts, hne, if_false, hpre, if_true]
  decide

theorem bindopts_auto_jailhome_witness :
    ("/var/jailbase/www" ≠ "") ∧
    (pyStartsWith "/var/jailbase/www" "/var/jailbase" = true) ∧
    bindopts "/var/jailbase" (fun _ => false) "/var/jailbase/www" (some "auto") =
      {"exec", "ro", "nosuid", "remount", "bind", "noatime"} :=
  ⟨by decide, by decide,
    bindopts_auto_jailhome "/var/jailbase" (fun _ => false) "/var/jailbase/www"
      (by decide) (by decide)⟩

end Binds

namespace Sfs

/-! ### The shadowed filesystem node (sfs.py, class Stat)

A `Stat` caches the `os.lstat` fields of one filesystem entry.  The fields
below are exactly the cached `st_*` slots the mutating operations touch,
plus `_link` (the symlink target) and the node's full path.  Python floats
(`st_atime`, `st_mtime`) are rationals here; uid/gid are `Int` so that the
sentinel `-1` (Python `None`/`-1`, both `< 0`) is expressible.  The tree
structure (`_parent`/`_children`) is modelled separately for the lookup and
invariant claims. -/

def S_IFMT : Nat := 0o170000
def S_IFDIR : Nat := 0o040000
def S_IFCHR : Nat := 0o020000
def S_IFBLK : Nat := 0o060000
def S_IFREG : Nat := 0o100000
def S_IFLNK : Nat := 0o120000

structure Stat where
  path : String
  st_mode : Nat := 0
  st_ino : Nat := 0
  st_uid : Int := 0
  st_gid : Int := 0
  st_size : Int := 0
  st_atime : Rat := 0
  st_mtime : Rat := 0
  st_rdev : Nat := 0
  st_flags : Nat := 0
  link : Option String := none
deriving DecidableEq, Repr

/-- `stat.S_IFMT(self.st_mode)` — the file-type bits (`Stat.fmt`). -/
def Stat.fmt (n : Stat) : Nat := n.st_mode &&& S_IFMT

/-- `stat.S_IMODE(self.st_mode)` — the permission bits (`Stat.mode`). -/
def Stat.mode (n : Stat) : Nat := n.st_mode &&& 0o7777

def Stat.isdir (n : Stat) : Bool := n.fmt == S_IFDIR
def Stat.isreg (n : Stat) : Bool := n.fmt == S_IFREG
def Stat.islnk (n : Stat) : Bool := n.fmt == S_IFLNK

/-- `Stat.__nonzero__`: a node "exists" iff its inode or its permission
mode is nonzero. -/
def Stat.nonzero (n : Stat) : Bool := n.st_ino != 0 || n.mode != 0

/-- The real-filesystem mutations the shadowed operations can issue. -/
inductive Syscall where
  | symlink (target path : String)
  | mkdir (path : String) (mode : Nat)
  | mknod (path : String) (mode dev : Nat)
  | copydata (src dst : String)
  | remove (path : String)
  | rmdir (path : String)
  | chown (path : String) (uid gid : Int)
  | chmod (path : String) (mode : Nat)
  | chflags (path : String) (flags : Nat)
  | utime (path : String) (atime mtime : Rat)
  | checkcache (path : String)
deriving DecidableEq, Repr

/-- `Jail.writable` (jail.py), as installed via `Stat.writable_fn`: with a
nonempty command text it raises when the write-policy regex rejects the
path, prints the command in test or verbose mode, and returns `False` in
test mode, else the allow flag.  All the mutating node operations call it
through `Stat.write_call` with a nonempty command and the node's path, so
`allowed` is the write-policy verdict on that path. -/
def writableP (test : Bool) (allowed : Bool) : Except Unit Bool :=
  if ¬allowed then .error () else .ok (if test then false else true)

/-- `Stat.write_call`: runs the gated syscall iff the writable predicate
returns true.  Produces whether the call ran and the emitted syscalls. -/
def writeCall (test allowed : Bool) (sys : List Syscall) :
    Except Unit (Bool × List Syscall) :=
  match writableP test allowed with
  | .error e => .error e
  | .ok true => .ok (true, sys)
  | .ok false => .ok (false, [])

/-- The result of a mutating node operation: the updated cached node and
the list of real-filesystem syscalls that were issued. -/
abbrev Res := Except Unit (Stat × List Syscall)

/-- `Stat.clear`, restricted to one node's cached fields: every `st_*`
slot and the link are zeroed.  (Detaching from the parent and orphaning
the children is the structural part, modelled in the heap section.) -/
def Stat.clearFields (n : Stat) : Stat :=
  { path := n.path, st_mode := 0, st_ino := 0, st_uid := 0, st_gid := 0,
    st_size := 0, st_atime := 0, st_mtime := 0, st_rdev := 0, st_flags := 0,
    link := none }

/-- `Stat.chown`.  A negative uid/gid (Python `None` or `-1`) leaves the
corresponding attribute unchanged. -/
def Stat.chownOp (test : Bool) (wp : String → Bool) (n : Stat) (uid gid : Int) : Res :=
  let uid := if uid < 0 then n.st_uid else uid
  let gid := if gid < 0 then n.st_gid else gid
  if uid ≠ n.st_uid ∨ gid ≠ n.st_gid then
    match writeCall test (wp n.path) [.chown n.path uid gid] with
    | .error e => .error e
    | .ok (_, sys) => .ok ({ n with st_uid := uid, st_gid := gid }, sys)
  else .ok (n, [])

/-- `Stat.chmod`. -/
def Stat.chmodOp (test : Bool) (wp : String → Bool) (n : Stat) (mode : Nat) : Res :=
  let m := mode &&& 0o7777
  if n.mode ≠ m then
    match writeCall test (wp n.path) [.chmod n.path m] with
    | .error e => .error e
    | .ok (_, sys) => .ok ({ n with st_mode := n.fmt ||| m }, sys)
  else .ok (n, [])

/-- `Stat.utime`.  The caller-side conversions (`None` → now, text →
`time.mktime`) are done before the call; within 0.5 seconds of the cached
mtime the operation returns with no syscall and no cache change. -/
def Stat.utimeOp (test : Bool) (wp : String → Bool) (n : Stat) (mtime : Rat) : Res :=
  if |mtime - n.st_mtime| < 1/2 then .ok (n, [])
  else
    match writeCall test (wp n.path) [.utime n.path mtime mtime] with
    | .error e => .error e
    | .ok (_, sys) => .ok ({ n with st_atime := mtime, st_mtime := mtime }, sys)

/-- `Stat.chflags` (the textual-flags conversion is caller-side; `os.chflags`
is taken as available, as on the BSD targets the branch guards). -/
def Stat.chflagsOp (test : Bool) (wp : String → Bool) (n : Stat) (flags : Nat) : Res :=
  if n.st_flags = flags then .ok (n, [])
  else
    match writeCall test (wp n.path) [.chflags n.path flags] with
    | .error e => .error e
    | .ok (_, sys) => .ok ({ n with st_flags := flags }, sys)

/-- `Stat.remove`: asserts the node is not a directory, issues `os.remove`
through the write gate, then clears the cached fields. -/
def Stat.removeOp (test : Bool) (wp : String → Bool) (n : Stat) : Res :=
  if n.isdir then .error ()
  else
    match writeCall test (wp n.path) [.remove n.path] with
    | .error e => .error e
    | .ok (_, sys) => .ok (n.clearFields, sys)

/-- `Stat.rmdir`: asserts the node is a directory, issues `os.rmdir`
through the write gate, then clears the cached fields. -/
def Stat.rmdirOp (test : Bool) (wp : String → Bool) (n : Stat) : Res :=
  if n.isdir then
    match writeCall test (wp n.path) [.rmdir n.path] with
    | .error e => .error e
    | .ok (_, sys) => .ok (n.clearFields, sys)
  else .error ()

/-- `Stat.symlink` with `path=None` (the destination node is `self`; path
resolution for the two-argument form goes through `getdefault`, modelled
with the lookup walk).  When the node does not exist or points elsewhere,
the gated `os.symlink` runs and the cache gets link mode `S_IFLNK|0o777`,
the target length as size, and the target. -/
def Stat.symlinkOp (test : Bool) (wp : String → Bool) (n : Stat) (target : String) : Res :=
  if n.nonzero = false ∨ n.link ≠ some target then
    match writeCall test (wp n.path) [.symlink target n.path] with
    | .error e => .error e
    | .ok (_, sys) =>
      .ok ({ n with st_mode := S_IFLNK ||| 0o777,
                    st_size := (target.length : Int), link := some target }, sys)
  else .ok (n, [])

/-- `Stat.mkdir`, applied to the node located by `getdefault(path, S_IFDIR)`:
create when missing (then reconcile ownership), reconcile permissions and
ownership when an existing directory, otherwise fail. -/
def Stat.mkdirOp (test : Bool) (wp : String → Bool) (n : Stat)
    (mode : Nat) (uid gid : Int) : Res := do
  let m := mode &&& 0o7777
  if n.nonzero = false then
    let (_, sys) ← writeCall test (wp n.path) [.mkdir n.path m]
    let n2 : Stat := { n with st_mode := n.fmt ||| m }
    let (n3, sys2) ← Stat.chownOp test wp n2 uid gid
    return (n3, sys ++ sys2)
  else if n.isdir then
    let (n2, sys) ← Stat.chmodOp test wp n m
    let (n3, sys2) ← Stat.chownOp test wp n2 uid gid
    return (n3, sys ++ sys2)
  else .error ()

/-- `Stat.mknod`, applied to the node located by `getdefault`: create when
missing; otherwise the file type and device number must match (asserted)
and the permissions are reconciled. -/
def Stat.mknodOp (test : Bool) (wp : String → Bool) (n : Stat)
    (mode device : Nat) : Res := do
  if n.nonzero = false then
    let (_, sys) ← writeCall test (wp n.path) [.mknod n.path mode device]
    return ({ n with st_mode := mode, st_rdev := device }, sys)
  else if n.fmt = (mode &&& S_IFMT) ∧ n.st_rdev = device then
    Stat.chmodOp test wp n mode
  else .error ()

/-- `Stat.copy2` from `src` onto the destination node: destination cache
fields are copied from the source before the gated `copydata`; the
post-copy metadata block (`lchown`, `chmod`, `chflags`, `utime`,
`checkcache`) runs only when the copy ran and returned a nonzero byte
count.  `checkcache` re-stats the destination on disk; it changes the
cache only by re-reading what the block just wrote, so it is recorded as
a syscall with no separate cache effect.  (The source's error branches
for a non-regular source or destination reference `cmd` before it is
bound — any such call raises, modelled as the error case.) -/
def Stat.copy2Op (test : Bool) (wp : String → Bool) (src dst : Stat) : Res := do
  if src.path = dst.path then return (dst, [])
  if src.isreg = false then .error ()
  else if dst.nonzero ∧ dst.isreg = false then .error ()
  else
    let dst2 : Stat :=
      { dst with st_size := src.st_size, st_uid := src.st_uid, st_gid := src.st_gid,
                 st_flags := src.st_flags, st_mode := src.st_mode,
                 st_atime := src.st_atime, st_mtime := src.st_mtime }
    let (ran, sys) ← writeCall test (wp dst2.path) [.copydata src.path dst2.path]
    if ran ∧ src.st_size ≠ 0 then
      return (dst2, sys ++
        [.chown dst2.path src.st_uid src.st_gid, .chmod dst2.path src.st_mode,
         .chflags dst2.path src.st_flags,
         .utime dst2.path src.st_atime src.st_mtime, .checkcache dst2.path])
    else
      return (dst2, sys)

/-- The mutating ShadowNode operations named by the dry-run claim, acting
on a destination node. -/
inductive MutOp where
  | symlinkM (target : String)
  | mkdirM (mode : Nat) (uid gid : Int)
  | mknodM (mode dev : Nat)
  | copy2M (src : Stat)
  | removeM
  | rmdirM
  | chownM (uid gid : Int)
  | chmodM (mode : Nat)
  | utimeM (t : Rat)
  | chflagsM (f : Nat)
deriving DecidableEq, Repr

def applyMut (test : Bool) (wp : String → Bool) (op : MutOp) (n : Stat) : Res :=
  match op with
  | .symlinkM t => Stat.symlinkOp test wp n t
  | .mkdirM m u g => Stat.mkdirOp test wp n m u g
  | .mknodM m d => Stat.mknodOp test wp n m d
  | .copy2M src => Stat.copy2Op test wp src n
  | .removeM => Stat.removeOp test wp n
  | .rmdirM => Stat.rmdirOp test wp n
  | .chownM u g => Stat.chownOp test wp n u g
  | .chmodM m => Stat.chmodOp test wp n m
  | .utimeM t => Stat.utimeOp test wp n t
  | .chflagsM f => Stat.chflagsOp test wp n f

/-- Erase the issued syscalls from a result, keeping the cached node. -/
def dropSys (r : Res) : Res := r.map (fun p => (p.1, []))

theorem writeCall_test (a : Bool) (sys : List Syscall) :
    writeCall true a sys = if a then .ok (false, []) else .error () := by
  cases a <;> simp [writeCall, writableP]

theorem writeCall_prod (a : Bool) (sys : List Syscall) :
    writeCall false a sys = if a then .ok (true, sys) else .error () := by
  cases a <;> simp [writeCall, writableP]

theorem chownOp_dry (wp : String → Bool) (n : Stat) (uid gid : Int) :
    Stat.chownOp true wp n uid gid = dropSys (Stat.chownOp false wp n uid gid) := by
  unfold Stat.chownOp
  cases h : wp n.path <;>
    simp [writeCall_test, writeCall_prod, h, dropSys, Except.map] <;>
    split <;> simp [dropSys, Except.map]

theorem chmodOp_dry (wp : String → Bool) (n : Stat) (mode : Nat) :
    Stat.chmodOp true wp n mode = dropSys (Stat.chmodOp false wp n mode) := by
  unfold Stat.chmodOp
  cases h : wp n.path <;>
    simp [writeCall_test, writeCall_prod, h, dropSys, Except.map] <;>
    split <;> simp [dropSys, Except.map]

theorem utimeOp_dry (wp : String → Bool) (n : Stat) (t : Rat) :
    Stat.utimeOp true wp n t = dropSys (Stat.utimeOp false wp n t) := by
  unfold Stat.utimeOp
  cases h : wp n.path <;>
    simp [writeCall_test, writeCall_prod, h, dropSys, Except.map] <;>
    split <;> simp [dropSys, Except.map]

theorem chflagsOp_dry (wp : String → Bool) (n : Stat) (f : Nat) :
    Stat.chflagsOp true wp n f = dropSys (Stat.chflagsOp false wp n f) := by
  unfold Stat.chflagsOp
  cases h : wp n.path <;>
    simp [writeCall_test, writeCall_prod, h, dropSys, Except.map] <;>
    split <;> simp [dropSys, Except.map]

theorem removeOp_dry (wp : String → Bool) (n : Stat) :
    Stat.removeOp true wp n = dropSys (Stat.removeOp false wp n) := by
  unfold Stat.removeOp
  cases h : wp n.path <;>
    simp [writeCall_test, writeCall_prod, h, dropSys, Except.map] <;>
    split <;> simp [dropSys, Except.map]

theorem rmdirOp_dry (wp : String → Bool) (n : Stat) :
    Stat.rmdirOp true wp n = dropSys (Stat.rmdirOp false wp n) := by
  unfold Stat.rmdirOp
  cases h : wp n.path <;>
    simp [writeCall_test, writeCall_prod, h, dropSys, Except.map] <;>
    split <;> simp [dropSys, Except.map]

theorem symlinkOp_dry (wp : String → Bool) (n : Stat) (t : String) :
    Stat.symlinkOp true wp n t = dropSys (Stat.symlinkOp false wp n t) := by
  unfold Stat.symlinkOp
  cases h : wp n.path <;>
    simp [writeCall_test, writeCall_prod, h, dropSys, Except.map] <;>
    split <;> simp [dropSys, Except.map]

theorem mkdirOp_dry (wp : String → Bool) (n : Stat) (mode : Nat) (uid gid : Int) :
    Stat.mkdirOp true wp n mode uid gid = dropSys (Stat.mkdirOp false wp n mode uid gid) := by
  unfold Stat.mkdirOp
  simp only [bind, Except.bind, pure, Except.pure]
  split
  · cases h : wp n.path with
    | false => simp [writeCall_test, writeCall_prod, h, dropSys, Except.map]
    | true =>
      simp only [writeCall_test, writeCall_prod, h, if_true]
      rw [chownOp_dry wp]
      cases hc : Stat.chownOp false wp { n with st_mode := n.fmt ||| (mode &&& 0o7777) } uid gid <;>
        simp [dropSys, Except.map]
  · split
    · rw [chmodOp_dry wp]
      cases hc : Stat.chmodOp false wp n (mode &&& 0o7777) with
      | error e => simp [dropSys, Except.map]
      | ok p =>
        simp only [dropSys, Except.map]
        rw [chownOp_dry wp]
        cases hc2 : Stat.chownOp false wp p.1 uid gid <;>
          simp [dropSys, Except.map]
    · simp [dropSys, Except.map]

theorem mknodOp_dry (wp : String → Bool) (n : Stat) (mode dev : Nat) :
    Stat.mknodOp true wp n mode dev = dropSys (Stat.mknodOp false wp n mode dev) := by
  unfold Stat.mknodOp
  simp only [bind, Except.bind, pure, Except.pure]
  split
  · cases h : wp n.path <;>
      simp [writeCall_test, writeCall_prod, h, dropSys, Except.map]
  · split
    · exact chmodOp_dry wp n mode
    · simp [dropSys, Except.map]

theorem copy2Op_dry (wp : String → Bool) (src n : Stat) :
    Stat.copy2Op true wp src n = dropSys (Stat.copy2Op false wp src n) := by
  unfold Stat.copy2Op
  simp only [bind, Except.bind, pure, Except.pure]
  split
  · simp [dropSys, Except.map]
  · split
    · simp [dropSys, Except.map]
    · split
      · simp [dropSys, Except.map]
      · cases h : wp n.path with
        | false => simp [writeCall_test, writeCall_prod, h, dropSys, Except.map]
        | true =>
          by_cases hsz : src.st_size = 0 <;>
            simp [writeCall_test, writeCall_prod, h, hsz, dropSys, Except.map]

/-! ### Node comparison (sfs.py, Stat.__cmp__) -/

/-- Lexicographic character-list comparison (Python `str` ordering). -/
def listStrLt : List Char → List Char → Bool
  | [], [] => false
  | [], _ :: _ => true
  | _ :: _, [] => false
  | a :: as, b :: bs =>
    if a.toNat < b.toNat then true
    else if b.toNat < a.toNat then false
    else listStrLt as bs

/-- Python `a < b` on strings. -/
def pyStrLt (a b : String) : Bool := listStrLt a.data b.data

/-- Python 2 ordering on `self.readlink()` values: `None` sorts before
every string. -/
def linkLt : Option String → Option String → Bool
  | none, some _ => true
  | some a, some b => pyStrLt a b
  | _, _ => false

/-- Python `x or y` on numbers: `x` when nonzero, else `y`. -/
def pyOrQ (x y : Rat) : Rat := if x ≠ 0 then x else y

/-- `Stat.__cmp__`: the difference accumulator (`diff`) and the final
sign extraction, exactly as in the source.  Integer fields are compared
through their differences; the mtime difference is kept as a rational and
zeroed inside the 0.5-second epsilon before the sign is taken. -/
def Stat.cmp (a b : Stat) : Int :=
  if a.nonzero = false then (if b.nonzero then 1 else 0)
  else if b.nonzero = false then -1
  else
    let diff : Rat :=
      pyOrQ ((a.mode : Rat) - (b.mode : Rat))
        (pyOrQ ((a.st_uid : Rat) - (b.st_uid : Rat))
          (pyOrQ ((a.st_gid : Rat) - (b.st_gid : Rat))
            ((a.st_size : Rat) - (b.st_size : Rat))))
    let diff : Rat :=
      if diff = 0 then
        if a.islnk then
          if linkLt a.link b.link then -1
          else if linkLt b.link a.link then 1
          else 0
        else
          let d := a.st_mtime - b.st_mtime
          if |d| > 1/2 then d else 0
      else diff
    if diff < 0 then -1 else if 0 < diff then 1 else 0

/-- The comparison as the specification words it: a non-existent node
sorts after an existing one; otherwise compare by mode, then uid, then
gid, then size, then — for symlinks — the link target lexically, and for
all other types by mtime with differences of at most 0.5 s equal. -/
def Stat.cmpSpec (a b : Stat) : Int :=
  if a.nonzero = false ∧ b.nonzero = true then 1
  else if a.nonzero = true ∧ b.nonzero = false then -1
  else if a.nonzero = false ∧ b.nonzero = false then 0
  else if a.mode < b.mode then -1
  else if b.mode < a.mode then 1
  else if a.st_uid < b.st_uid then -1
  else if b.st_uid < a.st_uid then 1
  else if a.st_gid < b.st_gid then -1
  else if b.st_gid < a.st_gid then 1
  else if a.st_size < b.st_size then -1
  else if b.st_size < a.st_size then 1
  else if a.islnk then
    if linkLt a.link b.link then -1
    else if linkLt b.link a.link then 1
    else 0
  else if |a.st_mtime - b.st_mtime| ≤ 1/2 then 0
  else if a.st_mtime < b.st_mtime then -1
  else 1

/-- Claim C7: `Stat.__cmp__` realises exactly the comparison order the
specification describes: non-existent after existing, then mode, uid,
gid, size, then link target (symlinks) or mtime with a 0.5-second
epsilon (other types). -/
theorem cmp_eq_cmpSpec (a b : Stat) : Stat.cmp a b = Stat.cmpSpec a b := by
  cases hA : a.nonzero with
  | false =>
    cases hB : b.nonzero <;> simp [Stat.cmp, Stat.cmpSpec, hA, hB]
  | true =>
    cases hB : b.nonzero with
    | false => simp [Stat.cmp, Stat.cmpSpec, hA, hB]
    | true =>
      simp only [Stat.cmp, Stat.cmpSpec, pyOrQ, hA, hB, Bool.true_eq_false, if_false,
        and_self, and_true, true_and, false_and, and_false, if_true, ite_false, ite_true]
      rcases lt_trichotomy a.mode b.mode with h1 | h1 | h1
      · have hc : (a.mode : Rat) < b.mode := by exact_mod_cast h1
        have hne : ((a.mode : Rat) - b.mode) ≠ 0 := sub_ne_zero.mpr (ne_of_lt hc)
        rw [if_pos hne, if_neg hne,
          if_pos (show ((a.mode : Rat) - b.mode) < 0 by linarith), if_pos h1]
      · have hc : (a.mode : Rat) = b.mode := by exact_mod_cast h1
        have hz : ((a.mode : Rat) - b.mode) = 0 := by rw [hc, sub_self]
        rw [if_neg (not_not_intro hz),
          if_neg (show ¬(a.mode < b.mode) by omega),
          if_neg (show ¬(b.mode < a.mode) by omega)]
        rcases lt_trichotomy a.st_uid b.st_uid with h2 | h2 | h2
        · have hc2 : (a.st_uid : Rat) < b.st_uid := by exact_mod_cast h2
          have hne : ((a.st_uid : Rat) - b.st_uid) ≠ 0 := sub_ne_zero.mpr (ne_of_lt hc2)
          rw [if_pos hne, if_neg hne,
            if_pos (show ((a.st_uid : Rat) - b.st_uid) < 0 by linarith), if_pos h2]
        · have hc2 : (a.st_uid : Rat) = b.st_uid := by exact_mod_cast h2
          have hz2 : ((a.st_uid : Rat) - b.st_uid) = 0 := by rw [hc2, sub_self]
          rw [if_neg (not_not_intro hz2),
            if_neg (show ¬(a.st_uid < b.st_uid) by omega),
            if_neg (show ¬(b.st_uid < a.st_uid) by omega)]
          rcases lt_trichotomy a.st_gid b.st_gid with h3 | h3 | h3
          · have hc3 : (a.st_gid : Rat) < b.st_gid := by exact_mod_cast h3
            have hne : ((a.st_gid : Rat) - b.st_gid) ≠ 0 := sub_ne_zero.mpr (ne_of_lt hc3)
            rw [if_pos hne, if_neg hne,
              if_pos (show ((a.st_gid : Rat) - b.st_gid) < 0 by linarith), if_pos h3]
          · have hc3 : (a.st_gid : Rat) = b.st_gid := by exact_mod_cast h3
            have hz3 : ((a.st_gid : Rat) - b.st_gid) = 0 := by rw [hc3, sub_self]
            rw [if_neg (not_not_intro hz3),
              if_neg (show ¬(a.st_gid < b.st_gid) by omega),
              if_neg (show ¬(b.st_gid < a.st_gid) by omega)]
            rcases lt_trichotomy a.st_size b.st_size with h4 | h4 | h4
            · have hc4 : (a.st_size : Rat) < b.st_size := by exact_mod_cast h4
              have hne : ((a.st_size : Rat) - b.st_size) ≠ 0 := sub_ne_zero.mpr (ne_of_lt hc4)
              rw [if_neg hne,
                if_pos (show ((a.st_size : Rat) - b.st_size) < 0 by linarith), if_pos h4]
            · have hc4 : (a.st_size : Rat) = b.st_size := by exact_mod_cast h4
              have hz4 : ((a.st_size : Rat) - b.st_size) = 0 := by rw [hc4, sub_self]
              rw [if_pos hz4,
                if_neg (show ¬(a.st_size < b.st_size) by omega),
                if_neg (show ¬(b.st_size < a.st_size) by omega)]
              cases hl : a.islnk with
              | true =>
                rw [if_pos rfl, if_pos rfl]
                by_cases hab : linkLt a.link b.link
                · rw [if_pos hab, if_pos hab]
                  norm_num
                · rw [if_neg hab, if_neg hab]
                  by_cases hba : linkLt b.link a.link
                  · rw [if_pos hba, if_pos hba]
                    norm_num
                  · rw [if_neg hba, if_neg hba]
                    norm_num
              | false =>
                rw [if_neg (show ¬(false = true) by simp),
                  if_neg (show ¬(false = true) by simp)]
                by_cases he : |a.st_mtime - b.st_mtime| ≤ 1/2
                · rw [if_pos he, if_neg (not_lt_of_ge he)]
                  norm_num
                · have hgt : 1/2 < |a.st_mtime - b.st_mtime| := lt_of_not_ge he
                  rw [if_neg he, if_pos hgt]
                  rcases lt_trichotomy a.st_mtime b.st_mtime with h5 | h5 | h5
                  · rw [if_pos h5, if_pos (show a.st_mtime - b.st_mtime < 0 by linarith)]
                  · exfalso
                    rw [h5, sub_self] at hgt
                    simp at hgt
                    linarith
                  · rw [if_neg (show ¬(a.st_mtime < b.st_mtime) by linarith),
                      if_neg (show ¬(a.st_mtime - b.st_mtime < 0) by linarith),
                      if_pos (show (0:Rat) < a.st_mtime - b.st_mtime by linarith)]
            · have hc4 : (b.st_size : Rat) < a.st_size := by exact_mod_cast h4
              have hne : ((a.st_size : Rat) - b.st_size) ≠ 0 := sub_ne_zero.mpr (ne_of_gt hc4)
              rw [if_neg hne,
                if_neg (show ¬(((a.st_size : Rat) - b.st_size) < 0) by linarith),
                if_pos (show (0:Rat) < ((a.st_size : Rat) - b.st_size) by linarith),
                if_neg (show ¬(a.st_size < b.st_size) by omega), if_pos h4]
          · have hc3 : (b.st_gid : Rat) < a.st_gid := by exact_mod_cast h3
            have hne : ((a.st_gid : Rat) - b.st_gid) ≠ 0 := sub_ne_zero.mpr (ne_of_gt hc3)
            rw [if_pos hne, if_neg hne,
              if_neg (show ¬(((a.st_gid : Rat) - b.st_gid) < 0) by linarith),
              if_pos (show (0:Rat) < ((a.st_gid : Rat) - b.st_gid) by linarith),
              if_neg (show ¬(a.st_gid < b.st_gid) by omega), if_pos h3]
        · have hc2 : (b.st_uid : Rat) < a.st_uid := by exact_mod_cast h2
          have hne : ((a.st_uid : Rat) - b.st_uid) ≠ 0 := sub_ne_zero.mpr (ne_of_gt hc2)
          rw [if_pos hne, if_neg hne,
            if_neg (show ¬(((a.st_uid : Rat) - b.st_uid) < 0) by linarith),
            if_pos (show (0:Rat) < ((a.st_uid : Rat) - b.st_uid) by linarith),
            if_neg (show ¬(a.st_uid < b.st_uid) by omega), if_pos h2]
      · have hc : (b.mode : Rat) < a.mode := by exact_mod_cast h1
        have hne : ((a.mode : Rat) - b.mode) ≠ 0 := sub_ne_zero.mpr (ne_of_gt hc)
        rw [if_pos hne, if_neg hne,
          if_neg (show ¬(((a.mode : Rat) - b.mode) < 0) by linarith),
          if_pos (show (0:Rat) < ((a.mode : Rat) - b.mode) by linarith),
          if_neg (show ¬(a.mode < b.mode) by omega), if_pos h1]

/-- Claim C1: in test mode every mutating ShadowNode operation issues no
real-filesystem syscall (the installed writable predicate returns false),
yet produces exactly the cached in-memory metadata a production run would
produce — so the whole dry run is computable from in-memory state.  The
equation also matches error behaviour: a test run fails exactly where the
production run would (write-policy rejection or a failed assertion). -/
theorem test_mode_is_dry_run (wp : String → Bool) (op : MutOp) (n : Stat) :
    applyMut true wp op n = dropSys (applyMut false wp op n) := by
  cases op with
  | symlinkM t => exact symlinkOp_dry wp n t
  | mkdirM m u g => exact mkdirOp_dry wp n m u g
  | mknodM m d => exact mknodOp_dry wp n m d
  | copy2M src => exact copy2Op_dry wp src n
  | removeM => exact removeOp_dry wp n
  | rmdirM => exact rmdirOp_dry wp n
  | chownM u g => exact chownOp_dry wp n u g
  | chmodM m => exact chmodOp_dry wp n m
  | utimeM t => exact utimeOp_dry wp n t
  | chflagsM f => exact chflagsOp_dry wp n f

end Sfs

namespace Lookup

/-! ### Path resolution with symlink-cycle detection (sfs.py, Stat.get)

`Stat.get` walks the `/`-separated names of a path.  At each step, if the
current node carries a (truthy) symlink target, the target is resolved by
a recursive `get` issued from the node's parent (or from `root` for an
absolute target) — with the mutable `links` set threaded through: the
node is added before recursing, and if the node is already a member the
walk raises `ValueError('...: recursive symlink, ... unreachable')`.

Here a node is identified by its position (list of names from the
absolute root), the in-memory tree together with the on-disk entries that
`os_lstat` would materialise is a static finite map from positions to an
optional symlink target, and the walk carries explicit fuel — the claim
theorems are about the behaviour at any sufficient fuel.  `..` is handled
before the child lookup: `..` can never be a key of `_children`, since
`get` only materialises a child for a name that fell through the `..`
branch, so the reordering against the source is behaviour-preserving. -/

abbrev Pos := List String

structure FsTree where
  nodes : List (Pos × Option String)
deriving DecidableEq, Repr

def findEntry : List (Pos × Option String) → Pos → Option (Option String)
  | [], _ => none
  | (q, l) :: rest, p => if q = p then some l else findEntry rest p

def FsTree.hasNode (t : FsTree) (p : Pos) : Bool := (findEntry t.nodes p).isSome

/-- The truthy symlink target of a node: Python `if node._link:` treats
both `None` and the empty string as "no link". -/
def FsTree.linkOf (t : FsTree) (p : Pos) : Option String :=
  match findEntry t.nodes p with
  | some (some l) => if l = "" then none else some l
  | _ => none

/-- One name step of the `Stat.get` loop body (after link resolution):
empty and `.` stay; `..` moves to the parent unless at the walk's `root`
(the absolute root's parent is `None`, i.e. an unreachable walk); any
other name looks up the child among `_children` merged with what
`os_lstat` materialises, yielding `None` when the entry is missing. -/
def stepName (t : FsTree) (rootPos q : Pos) (name : String) : Option Pos :=
  if name = "" ∨ name = "." then some q
  else if name = ".." then
    if q = rootPos then some q
    else if q = [] then none
    else some q.dropLast
  else if t.hasNode (q ++ [name]) then some (q ++ [name])
  else none

inductive GetErr where
  | symlinkLoop
  | outOfFuel
deriving DecidableEq, Repr

/-- Where the recursive `get` for a link target starts:
`root if path.startswith('/') else self`, issued from the symlink node's
parent.  (The source asserts the parent exists; the absolute root cannot
be a symlink, so the `p = []` case is degenerate and kept at the root.) -/
def startOfLink (rootPos p : Pos) (tgt : String) : Option Pos :=
  if pyStartsWith tgt "/" then some rootPos
  else if p = [] then some [] else some p.dropLast

/-- The `Stat.get` name loop.  The result is the found node (or `none`
for a missing path) together with the final visited-links set; fuel only
bounds the recursion depth so the definition is total. -/
def walkFuel (t : FsTree) (rootPos : Pos) :
    Nat → List Pos → Option Pos → List String → Except GetErr (Option Pos × List Pos)
  | 0, _, _, _ => .error .outOfFuel
  | _ + 1, links, node, [] => .ok (node, links)
  | _ + 1, links, none, _ :: _ => .ok (none, links)
  | fuel + 1, links, some p, name :: rest =>
    match t.linkOf p with
    | some tgt =>
      if p ∈ links then .error .symlinkLoop
      else
        match walkFuel t rootPos fuel (p :: links) (startOfLink rootPos p tgt) (pySplit '/' tgt) with
        | .error e => .error e
        | .ok (none, links3) => .ok (none, links3)
        | .ok (some q, links3) =>
          walkFuel t rootPos fuel links3 (stepName t rootPos q name) rest
    | none =>
      walkFuel t rootPos fuel links (stepName t rootPos p name) rest

/-- `Stat.get(path)` entry point: absolute paths restart at `root`. -/
def getFuel (t : FsTree) (rootPos : Pos) (fuel : Nat) (links : List Pos)
    (selfPos : Pos) (path : String) : Except GetErr (Option Pos × List Pos) :=
  let start := if pyStartsWith path "/" then rootPos else selfPos
  walkFuel t rootPos fuel links (some start) (pySplit '/' path)

/-- Claim C3: the visited-links set is threaded through the walk, and the
moment resolution reaches a symlink node that is already a member of that
set the lookup fails with the SymlinkLoop error — at the first revisit,
before any further recursion (the error is produced by this very step,
at any fuel). -/
theorem revisited_symlink_fails (t : FsTree) (rootPos : Pos) (fuel : Nat)
    (links : List Pos) (p : Pos) (name : String) (rest : List String) (tgt : String)
    (hl : t.linkOf p = some tgt) (hmem : p ∈ links) :
    walkFuel t rootPos (fuel + 1) links (some p) (name :: rest) =
      .error .symlinkLoop := by
  simp [walkFuel, hl, hmem]

def cycTree : FsTree := ⟨[(["a"], some "b/"), (["b"], some "a/")]⟩

theorem revisited_symlink_fails_witness :
    cycTree.linkOf ["a"] = some "b/" ∧ (["a"] : Pos) ∈ [(["a"] : Pos)] ∧
    walkFuel cycTree [] (4 + 1) [["a"]] (some ["a"]) ["x"] =
      .error .symlinkLoop :=
  ⟨by decide, by decide,
    revisited_symlink_fails cycTree [] 4 [["a"]] ["a"] "x" [] "b/"
      (by decide) (by decide)⟩

/-- On the two-node symlink cycle `a -> b/`, `b -> a/`, a full lookup of
`/a/x` fails with SymlinkLoop (rather than recursing forever): the walk
visits `a`, resolves into `b`, and fails on the first revisit of `a`. -/
theorem cyclic_chain_lookup_fails :
    getFuel cycTree [] 20 [] [] "/a/x" = .error .symlinkLoop := by decide

end Lookup

namespace RmRf

/-! ### Recursive removal (sfs.py, Stat.rm_rf)

```
def rm_rf(self, dstpath=''):
    dststat = self.get(dstpath)
    if dststat:
        if dststat.isdir():
            assert dststat.path.count('/') > 2
            for name in dststat.listdir():
                dststat.rm_rf(name)
            dststat.rmdir()
        else:
            dststat.remove()
    return
```

The model takes the located target (the `self.get(dstpath)` result; a
non-existent target falls out of the `if dststat:` and nothing happens)
together with its full path, and records the deletions requested through
the write gate.  `nondir` stands for any non-directory entry (file,
symlink, device, ...), which `remove()` deletes.  `listdir()` iterates
the sorted child names; the iteration order only permutes the emitted
operations and is kept as the child-list order here. -/

inductive FsNode where
  | nondir : FsNode
  | dir : List (String × FsNode) → FsNode

/-- The full path of a child node (`Stat.path` of a child is the parent
path joined with the name; the root's path is `/`). -/
def childPath (p name : String) : String :=
  if p = "/" then p ++ name else p ++ "/" ++ name

inductive WOp where
  | remove (path : String)
  | rmdir (path : String)
deriving DecidableEq, Repr

mutual

def rmRf (path : String) : FsNode → Except Unit (List WOp)
  | .nondir => .ok [.remove path]
  | .dir cs =>
    if pyCount path '/' > 2 then
      match rmRfChildren path cs with
      | .error e => .error e
      | .ok ops => .ok (ops ++ [.rmdir path])
    else .error ()

def rmRfChildren (path : String) : List (String × FsNode) → Except Unit (List WOp)
  | [] => .ok []
  | (name, c) :: rest =>
    match rmRf (childPath path name) c with
    | .error e => .error e
    | .ok ops =>
      match rmRfChildren path rest with
      | .error e => .error e
      | .ok ops2 => .ok (ops ++ ops2)

end

/-- Counterexample to claim C4 as stated: `/a/b` contains exactly two
`/` characters, yet `rm_rf` on a non-directory at that path issues the
removal — the slash-count guard is asserted only on the directory
branch, so the refusal does not extend to non-directories. -/
theorem rm_rf_nondir_counterexample :
    pyCount "/a/b" '/' ≤ 2 ∧ rmRf "/a/b" FsNode.nondir = .ok [WOp.remove "/a/b"] :=
  ⟨by decide, by decide⟩

/-- Claim C4 (amended): the ≤2-slash refusal applies exactly to
directory targets: `rm_rf` on a directory whose full path has at most
two `/` characters fails the assertion and requests no deletion at all
(this includes the root path `/`), while a non-directory target is
removed with no slash-count check. -/
theorem rm_rf_guard_directories_only (path : String) (cs : List (String × FsNode))
    (h : pyCount path '/' ≤ 2) :
    rmRf path (FsNode.dir cs) = .error () ∧
    rmRf path FsNode.nondir = .ok [WOp.remove path] := by
  constructor
  · have hn : ¬(pyCount path '/' > 2) := by omega
    simp [rmRf, hn]
  · simp [rmRf]

theorem rm_rf_guard_directories_only_witness :
    pyCount "/a/b" '/' ≤ 2 ∧
    (rmRf "/a/b" (FsNode.dir [("c", FsNode.nondir)]) = .error () ∧
     rmRf "/a/b" FsNode.nondir = .ok [WOp.remove "/a/b"]) :=
  ⟨by decide, rm_rf_guard_directories_only "/a/b" [("c", FsNode.nondir)] (by decide)⟩

end RmRf

namespace ShadowHeap

/-! ### The parent/children identity invariant (sfs.py, Stat.__init__ / Stat.clear)

The shadow tree is an object graph: each node holds `_parent` (an object
reference or `None`), `_name`, and `_children`, a dict from child name to
child object.  Exactly two places mutate this structure:

* `Stat.__init__` (run by every node creation, i.e. by `get`'s `lstat`
  materialisation and by `getdefault`'s placeholder creation) asserts the
  name is nonempty and not yet a key of the parent's dict, then stores
  `parent._children[name] = self`;
* `Stat.clear` (run by `remove`, `rmdir` and hence by `rm_rf`) sets the
  `_parent` of every child to `None`, empties its own `_children`, and
  sets its own `_parent` and `_name` to `None` (stat fields to 0).

To speak about object identity the graph is embedded as a heap: nodes are
numbered, the heap maps numbers to node records, and `next` is the next
fresh number.  Failed assertions abort the Python process, so a failed
precondition leaves the heap unchanged (no state is reachable past it). -/

structure NodeData where
  parent : Option Nat
  name : Option String
  children : List (String × Nat)
  st_ino : Nat
  st_mode : Nat
deriving DecidableEq, Repr

def findN (i : Nat) : List (Nat × NodeData) → Option NodeData
  | [] => none
  | (j, d) :: rest => if j = i then some d else findN i rest

def modifyN (i : Nat) (f : NodeData → NodeData) : List (Nat × NodeData) → List (Nat × NodeData)
  | [] => []
  | (j, d) :: rest => if j = i then (j, f d) :: rest else (j, d) :: modifyN i f rest

def childLookup (name : String) : List (String × Nat) → Option Nat
  | [] => none
  | (m, c) :: rest => if m = name then some c else childLookup name rest

structure Heap where
  nodes : List (Nat × NodeData)
  next : Nat
deriving DecidableEq, Repr

/-- `child._parent = None` (the loop body of `Stat.clear`). -/
def orphan (d : NodeData) : NodeData := { d with parent := none }

def orphanAll (cs : List (String × Nat)) (ns : List (Nat × NodeData)) :
    List (Nat × NodeData) :=
  cs.foldl (fun acc c => modifyN c.2 orphan acc) ns

/-- The cleared node: `_children` emptied, `_parent`/`_name`/`_link` set
to `None`, stat fields zeroed. -/
def cleared (_ : NodeData) : NodeData :=
  { parent := none, name := none, children := [], st_ino := 0, st_mode := 0 }

/-- A freshly constructed child (`Stat.__init__` before `refresh`; the
stat fields play no role in the structural invariant). -/
def newChild (pid : Nat) (name : String) : NodeData :=
  { parent := some pid, name := some name, children := [], st_ino := 0, st_mode := 0 }

inductive HOp where
  | create (pid : Nat) (name : String)
  | clear (i : Nat)
deriving DecidableEq, Repr

def applyOp (h : Heap) : HOp → Heap
  | .create pid name =>
    match findN pid h.nodes with
    | none => h
    | some pd =>
      if name = "" then h
      else
        match childLookup name pd.children with
        | some _ => h
        | none =>
          { nodes := (h.next, newChild pid name) ::
              modifyN pid (fun d => { d with children := (name, h.next) :: d.children }) h.nodes,
            next := h.next + 1 }
  | .clear i =>
    match findN i h.nodes with
    | none => h
    | some d =>
      { nodes := modifyN i cleared (orphanAll d.children h.nodes), next := h.next }

/-- The initial heap: one root with empty name and no parent
(`Stat(None)`). -/
def initHeap : Heap :=
  { nodes := [(0, { parent := none, name := some "", children := [], st_ino := 0, st_mode := 0 })],
    next := 1 }

def runOps (ops : List HOp) : Heap := ops.foldl applyOp initHeap

def Bound (h : Heap) : Prop := ∀ k d, findN k h.nodes = some d → k < h.next

/-- The claimed invariant: every node either has no parent, or is
registered in its parent's children map under its own name, with
identity. -/
def ParentInv (h : Heap) : Prop :=
  ∀ k d, findN k h.nodes = some d →
    d.parent = none ∨
    ∃ q pd nm, d.parent = some q ∧ d.name = some nm ∧
      findN q h.nodes = some pd ∧ childLookup nm pd.children = some k

theorem findN_modifyN_self (i : Nat) (f : NodeData → NodeData)
    (l : List (Nat × NodeData)) :
    findN i (modifyN i f l) = (findN i l).map f := by
  induction l with
  | nil => simp [findN, modifyN]
  | cons p rest ih =>
    obtain ⟨j, d⟩ := p
    by_cases h : j = i
    · simp [findN, modifyN, h]
    · simp [findN, modifyN, h, ih]

theorem findN_modifyN_ne {k i : Nat} (h : k ≠ i) (f : NodeData → NodeData)
    (l : List (Nat × NodeData)) :
    findN k (modifyN i f l) = findN k l := by
  induction l with
  | nil => rfl
  | cons p rest ih =>
    obtain ⟨j, d⟩ := p
    by_cases hji : j = i
    · subst hji
      have hjk : ¬(j = k) := by omega
      simp [findN, modifyN, hjk]
    · by_cases hjk : j = k
      · simp [findN, modifyN, hji, hjk, h]
      · simp [findN, modifyN, hji, hjk, ih]

theorem findN_orphanAll (k : Nat) (cs : List (String × Nat)) :
    ∀ ns, findN k (orphanAll cs ns) =
      if cs.any (fun c => c.2 = k) then (findN k ns).map orphan else findN k ns := by
  induction cs with
  | nil => intro ns; simp [orphanAll]
  | cons c rest ih =>
    intro ns
    have hstep : orphanAll (c :: rest) ns = orphanAll rest (modifyN c.2 orphan ns) := rfl
    rw [hstep, ih]
    by_cases h : c.2 = k
    · rw [h, findN_modifyN_self]
      by_cases hr : rest.any (fun c => c.2 = k)
      · simp only [hr, if_true, List.any_cons, h]
        rw [Option.map_map]
        have : orphan ∘ orphan = orphan := funext (fun d => rfl)
        simp [this]
      · simp [hr, List.any_cons, h]
    · rw [findN_modifyN_ne (fun hc => h hc.symm)]
      by_cases hr : rest.any (fun c => c.2 = k) <;>
        simp [hr, List.any_cons, h]

theorem childLookup_any {nm : String} {cs : List (String × Nat)} {k : Nat}
    (h : childLookup nm cs = some k) : cs.any (fun c => c.2 = k) = true := by
  induction cs with
  | nil => simp [childLookup] at h
  | cons c rest ih =>
    obtain ⟨m, v⟩ := c
    by_cases hm : m = nm
    · simp only [childLookup, hm, if_pos rfl] at h
      cases h
      simp [List.any_cons]
    · simp only [childLookup, hm, if_neg hm] at h
      simp [List.any_cons, ih h]

theorem inv_create (h : Heap) (pid : Nat) (name : String)
    (hB : Bound h) (hP : ParentInv h) :
    Bound (applyOp h (.create pid name)) ∧ ParentInv (applyOp h (.create pid name)) := by
  cases hpid : findN pid h.nodes with
  | none =>
    simp only [applyOp, hpid]
    exact ⟨hB, hP⟩
  | some pd =>
    by_cases hname : name = ""
    · simp only [applyOp, hpid, hname, if_pos rfl]
      exact ⟨hB, hP⟩
    · cases hcl : childLookup name pd.children with
      | some v =>
        simp only [applyOp, hpid, if_neg hname, hcl]
        exact ⟨hB, hP⟩
      | none =>
        simp only [applyOp, hpid, if_neg hname, hcl]
        have hpidlt : pid < h.next := hB pid pd hpid
        have hpidne : pid ≠ h.next := Nat.ne_of_lt hpidlt
        constructor
        · -- Bound
          intro k d hk
          dsimp only at hk ⊢
          simp only [findN] at hk
          by_cases hkn : h.next = k
          · omega
          · rw [if_neg hkn] at hk
            by_cases hkp : k = pid
            · subst hkp
              rw [findN_modifyN_self] at hk
              have : k < h.next := hB k pd hpid
              omega
            · rw [findN_modifyN_ne hkp] at hk
              have := hB k d hk
              omega
        · -- ParentInv
          intro k d hk
          dsimp only at hk ⊢
          simp only [findN] at hk
          by_cases hkn : h.next = k
          · -- the new child
            subst hkn
            rw [if_pos rfl] at hk
            cases hk
            right
            refine ⟨pid, { pd with children := (name, h.next) :: pd.children }, name,
              rfl, rfl, ?_, ?_⟩
            · simp only [findN, if_neg (fun hc : h.next = pid => hpidne hc.symm)]
              rw [findN_modifyN_self, hpid]
              rfl
            · simp [childLookup]
          · rw [if_neg hkn] at hk
            by_cases hkp : k = pid
            · -- the parent node itself
              subst hkp
              rw [findN_modifyN_self, hpid] at hk
              cases hk
              rcases hP k pd hpid with hnone | ⟨q, pd2, nm, hpar, hnm, hq, hclq⟩
              · left; exact hnone
              · right
                have hqlt : q < h.next := hB q pd2 hq
                have hqne : h.next ≠ q := fun hc => absurd hc.symm (Nat.ne_of_lt hqlt)
                by_cases hqp : q = k
                · -- parent of pid is pid itself
                  subst hqp
                  refine ⟨q, { pd with children := (name, h.next) :: pd.children }, nm,
                    hpar, hnm, ?_, ?_⟩
                  · simp only [findN, if_neg hqne]
                    rw [findN_modifyN_self, hpid]
                    rfl
                  · have hnmne : nm ≠ name := by
                      intro hc
                      rw [hq] at hpid
                      cases hpid
                      rw [hc, hcl] at hclq
                      cases hclq
                    simp only [childLookup, if_neg (fun hc : name = nm => hnmne hc.symm)]
                    rw [hq] at hpid
                    cases hpid
                    exact hclq
                · refine ⟨q, pd2, nm, hpar, hnm, ?_, hclq⟩
                  simp only [findN, if_neg hqne]
                  rw [findN_modifyN_ne hqp]
                  exact hq
            · -- an untouched node
              rw [findN_modifyN_ne hkp] at hk
              rcases hP k d hk with hnone | ⟨q, pd2, nm, hpar, hnm, hq, hclq⟩
              · left; exact hnone
              · right
                have hqlt : q < h.next := hB q pd2 hq
                have hqne : h.next ≠ q := fun hc => absurd hc.symm (Nat.ne_of_lt hqlt)
                by_cases hqp : q = pid
                · subst hqp
                  refine ⟨q, { pd with children := (name, h.next) :: pd.children }, nm,
                    hpar, hnm, ?_, ?_⟩
                  · simp only [findN, if_neg hqne]
                    rw [findN_modifyN_self, hpid]
                    rfl
                  · have hpd2 : pd2 = pd := by
                      rw [hq] at hpid
                      cases hpid
                      rfl
                    subst hpd2
                    have hnmne : nm ≠ name := by
                      intro hc
                      rw [hc, hcl] at hclq
                      cases hclq
                    simp only [childLookup, if_neg (fun hc : name = nm => hnmne hc.symm)]
                    exact hclq
                · refine ⟨q, pd2, nm, hpar, hnm, ?_, hclq⟩
                  simp only [findN, if_neg hqne]
                  rw [findN_modifyN_ne hqp]
                  exact hq

theorem inv_clear (h : Heap) (i : Nat)
    (hB : Bound h) (hP : ParentInv h) :
    Bound (applyOp h (.clear i)) ∧ ParentInv (applyOp h (.clear i)) := by
  cases hi : findN i h.nodes with
  | none =>
    simp only [applyOp, hi]
    exact ⟨hB, hP⟩
  | some d0 =>
    simp only [applyOp, hi]
    constructor
    · -- Bound: the key set is unchanged
      intro k d hk
      dsimp only at hk ⊢
      by_cases hki : k = i
      · subst hki
        rw [findN_modifyN_self, findN_orphanAll] at hk
        by_cases hmem : d0.children.any (fun c => c.2 = k)
        · rw [if_pos hmem] at hk
          rcases Option.map_eq_some'.mp (Option.map_eq_some'.mp hk).choose_spec.1 with ⟨e, he, _⟩
          exact hB k e he
        · rw [if_neg hmem] at hk
          rcases Option.map_eq_some'.mp hk with ⟨e, he, _⟩
          exact hB k e he
      · rw [findN_modifyN_ne hki, findN_orphanAll] at hk
        by_cases hmem : d0.children.any (fun c => c.2 = k)
        · rw [if_pos hmem] at hk
          rcases Option.map_eq_some'.mp hk with ⟨e, he, _⟩
          exact hB k e he
        · rw [if_neg hmem] at hk
          exact hB k d hk
    · -- ParentInv
      intro k d hk
      dsimp only at hk ⊢
      by_cases hki : k = i
      · subst hki
        rw [findN_modifyN_self] at hk
        rcases Option.map_eq_some'.mp hk with ⟨e, _, hde⟩
        left
        rw [← hde]
        rfl
      · rw [findN_modifyN_ne hki, findN_orphanAll] at hk
        by_cases hmem : d0.children.any (fun c => c.2 = k)
        · rw [if_pos hmem] at hk
          rcases Option.map_eq_some'.mp hk with ⟨e, _, hde⟩
          left
          rw [← hde]
          rfl
        · rw [if_neg hmem] at hk
          rcases hP k d hk with hnone | ⟨q, pd, nm, hpar, hnm, hq, hclq⟩
          · left; exact hnone
          · right
            by_cases hqi : q = i
            · -- the old parent is the cleared node: then k would be among
              -- its children, contradicting hmem
              exfalso
              subst hqi
              rw [hq] at hi
              cases hi
              exact absurd (childLookup_any hclq) (by simpa using hmem)
            · refine ⟨q, ?_, nm, hpar, hnm, ?_, ?_⟩
              · exact if q ∈ d0.children.map (fun c => c.2) then orphan pd else pd
              · rw [findN_modifyN_ne hqi, findN_orphanAll]
                by_cases hqmem : d0.children.any (fun c => c.2 = q)
                · rw [if_pos hqmem, hq]
                  have : q ∈ d0.children.map (fun c => c.2) := by
                    rcases List.any_eq_true.mp hqmem with ⟨c, hc, hcq⟩
                    exact List.mem_map.mpr ⟨c, hc, by simpa using hcq⟩
                  rw [if_pos this]
                  rfl
                · rw [if_neg hqmem, hq]
                  have : q ∉ d0.children.map (fun c => c.2) := by
                    intro hc
                    rcases List.mem_map.mp hc with ⟨c, hc2, hcq⟩
                    exact hqmem (List.any_eq_true.mpr ⟨c, hc2, by simpa using hcq⟩)
                  rw [if_neg this]
              · by_cases hqmem : q ∈ d0.children.map (fun c => c.2) <;>
                  simp only [hqmem, if_true, if_false, orphan] <;>
                  exact hclq

theorem inv_runOps (ops : List HOp) :
    Bound (runOps ops) ∧ ParentInv (runOps ops) := by
  have hinit : Bound initHeap ∧ ParentInv initHeap := by
    constructor
    · intro k d hk
      simp only [initHeap, findN] at hk
      by_cases h0 : 0 = k
      · show k < initHeap.next
        simp only [initHeap]
        omega
      · rw [if_neg h0] at hk
        cases hk
    · intro k d hk
      simp only [initHeap, findN] at hk
      by_cases h0 : 0 = k
      · rw [if_pos h0] at hk
        cases hk
        left
        rfl
      · rw [if_neg h0] at hk
        cases hk
  suffices hgen : ∀ (l : List HOp) (h : Heap), Bound h ∧ ParentInv h →
      Bound (l.foldl applyOp h) ∧ ParentInv (l.foldl applyOp h) by
    exact hgen ops initHeap hinit
  intro l
  induction l with
  | nil => intro h hh; exact hh
  | cons op rest ih =>
    intro h hh
    have hstep : Bound (applyOp h op) ∧ ParentInv (applyOp h op) := by
      cases op with
      | create pid name => exact inv_create h pid name hh.1 hh.2
      | clear i => exact inv_clear h i hh.1 hh.2
    exact ih (applyOp h op) hstep

/-- Claim C6: after any sequence of shadow-tree operations (node creation
by `get`/`getdefault`, and the clears performed by `remove`, `rmdir`,
`rm_rf` and `clear`), every reachable node either has no parent or is
registered in its parent's children map under its own name, identically:
`n.parent.children[n.name] is n`. -/
theorem shadow_parent_child_identity (ops : List HOp) (k : Nat) (d : NodeData)
    (hk : findN k (runOps ops).nodes = some d) :
    d.parent = none ∨
    ∃ q pd nm, d.parent = some q ∧ d.name = some nm ∧
      findN q (runOps ops).nodes = some pd ∧ childLookup nm pd.children = some k :=
  (inv_runOps ops).2 k d hk

theorem shadow_parent_child_identity_witness :
    findN 1 (runOps [HOp.create 0 "bin"]).nodes = some (newChild 0 "bin") ∧
    ((newChild 0 "bin").parent = none ∨
     ∃ q pd nm, (newChild 0 "bin").parent = some q ∧ (newChild 0 "bin").name = some nm ∧
       findN q (runOps [HOp.create 0 "bin"]).nodes = some pd ∧
       childLookup nm pd.children = some 1) :=
  ⟨by decide, shadow_parent_child_identity [HOp.create 0 "bin"] 1 (newChild 0 "bin") (by decide)⟩

end ShadowHeap

namespace Ldlist

/-! ### Dependency-listing memoisation (jail.py, Jail.ldlist / Jail.pcall)

```
def ldlist(self, path):
    try:
        return self._ldlist_cache[path]
    except KeyError:
        pass
    if not os.path.isabs(path):
        raise ValueError(repr(path) + ': path not absolute')
    cmd = self._ldlist_cmd.format(...).split()
    try:
        text = self.pcall(cmd)
        self.ldlist_count += 1
    except subprocess.CalledProcessError, err:
        return self._ldlist_cache.setdefault(path, tuple())
    except OSError, err:
        err.strerror = ...
        raise
    result = set()
    for match in self._ldlist_rx.finditer(text):
        result.update(self._ldso_cache.get(match.group(1), [match.group(1)]))
    return self._ldlist_cache.setdefault(path, result)

def pcall(self, args):
    ...
    process = subprocess.Popen(args, stderr=subprocess.STDOUT, stdout=subprocess.PIPE)
    return process.communicate()[0]
```

`pcall` spawns the loader with `Popen` and returns `communicate()[0]`
without inspecting the exit status.  `Popen` raises `OSError` when the
spawn fails; `communicate` never raises `CalledProcessError` (only the
`check_*` helpers do), so a loader that runs but exits nonzero still
returns its merged stdout/stderr, and ldlist's
`except CalledProcessError` branch is unreachable.  The `pcall` oracle
therefore has exactly two outcomes: the captured output text, or an
`OSError` while spawning, which propagates out of `ldlist` without
touching the cache.  The regex scan plus the `_ldso_cache` soname
resolution is the pure function `parseDeps` of the captured text.

`ldlist` here returns the call's outcome (result or raise) together with
the object state after the call: the memo cache, `calls` counting the
`pcall` spawn attempts, and the source's `ldlist_count` counter. -/

inductive PcallRes where
  | ok (text : String)
  | osError
deriving DecidableEq, Repr

structure LdState where
  cache : List (String × List String)
  calls : Nat
  ldlist_count : Nat
deriving DecidableEq, Repr

def cacheLookup (path : String) : List (String × List String) → Option (List String)
  | [] => none
  | (p, r) :: rest => if p = path then some r else cacheLookup path rest

def ldlist (pc : String → PcallRes) (parseDeps : String → List String)
    (path : String) (s : LdState) : Except Unit (List String) × LdState :=
  match cacheLookup path s.cache with
  | some r => (.ok r, s)
  | none =>
    if pyStartsWith path "/" = false then (.error (), s)
    else
      match pc path with
      | .osError => (.error (), { s with calls := s.calls + 1 })
      | .ok text =>
        let result := parseDeps text
        let s2 : LdState := { s with cache := (path, result) :: s.cache,
                                     calls := s.calls + 1,
                                     ldlist_count := s.ldlist_count + 1 }
        (.ok result, s2)

/-- Counterexample to claim C8 as stated: a failing loader invocation —
the spawn fails with `OSError`, the only failure `pcall` can raise — does
NOT memoize the empty result: the exception propagates with the cache
left empty, and a subsequent call for the same path invokes the loader
again (the spawn counter rises from 1 to 2) instead of returning a
memoized empty result. -/
theorem ldlist_failure_not_memoized :
    ldlist (fun _ => PcallRes.osError) (fun _ => []) "/bin/sh" ⟨[], 0, 0⟩ =
      (.error (), ⟨[], 1, 0⟩) ∧
    ldlist (fun _ => PcallRes.osError) (fun _ => []) "/bin/sh" ⟨[], 1, 0⟩ =
      (.error (), ⟨[], 2, 0⟩) := by decide

/-- Claim C8 (amended): `ldlist` is memoized per input path — a
successful call leaves a state from which the same call returns the
identical result with the state (including the spawn counter) untouched,
so the loader is not re-invoked.  A loader that runs (with any exit
status) yields its captured output, whose parse is memoized via the
normal path; a spawn failure (`OSError`) propagates with the cache
untouched, so nothing is memoized and a retry spawns again.  (The
source's `except CalledProcessError` branch, which would memoize the
empty tuple, is dead code: `pcall` never raises that exception.) -/
theorem ldlist_memoization (pc : String → PcallRes) (parseDeps : String → List String)
    (path : String) (s : LdState) :
    (∀ r s2, ldlist pc parseDeps path s = (.ok r, s2) →
      ldlist pc parseDeps path s2 = (.ok r, s2)) ∧
    (cacheLookup path s.cache = none → pyStartsWith path "/" = true →
      ∀ text, pc path = .ok text →
      ldlist pc parseDeps path s =
        (.ok (parseDeps text),
          ⟨(path, parseDeps text) :: s.cache, s.calls + 1, s.ldlist_count + 1⟩)) ∧
    (cacheLookup path s.cache = none → pyStartsWith path "/" = true →
      pc path = .osError →
      ldlist pc parseDeps path s = (.error (), { s with calls := s.calls + 1 }) ∧
      ldlist pc parseDeps path { s with calls := s.calls + 1 } =
        (.error (), { s with calls := s.calls + 2 })) := by
  refine ⟨?_, ?_, ?_⟩
  · intro r s2 hcall
    cases hc : cacheLookup path s.cache with
    | some r0 =>
      simp only [ldlist, hc, Prod.mk.injEq, Except.ok.injEq] at hcall
      obtain ⟨hr, hs⟩ := hcall
      subst hr
      subst hs
      simp [ldlist, hc]
    | none =>
      by_cases habs : pyStartsWith path "/" = false
      · simp [ldlist, hc, habs] at hcall
      · have habs2 : pyStartsWith path "/" = true := by
          cases hx : pyStartsWith path "/"
          · exact absurd hx habs
          · rfl
        cases hpc : pc path with
        | osError =>
          simp [ldlist, hc, habs2, hpc] at hcall
        | ok text =>
          simp only [ldlist, hc, habs2, hpc, Bool.true_eq_false, if_false,
            Prod.mk.injEq, Except.ok.injEq] at hcall
          obtain ⟨hr, hs⟩ := hcall
          subst hr
          subst hs
          simp [ldlist, cacheLookup]
  · intro hc habs text hpc
    simp [ldlist, hc, habs, hpc]
  · intro hc habs hpc
    have hc2 : cacheLookup path ({ s with calls := s.calls + 1 } : LdState).cache = none := hc
    constructor
    · simp [ldlist, hc, habs, hpc]
    · simp only [ldlist, hc2, habs, hpc, Bool.true_eq_false, if_false]

theorem ldlist_memoization_witness :
    (ldlist (fun _ => PcallRes.osError) (fun _ => []) "/lib/libc.so" ⟨[], 0, 0⟩ =
       (.error (), ⟨[], 1, 0⟩) ∧
     ldlist (fun _ => PcallRes.osError) (fun _ => []) "/lib/libc.so" ⟨[], 1, 0⟩ =
       (.error (), ⟨[], 2, 0⟩)) ∧
    ldlist (fun _ => PcallRes.ok "out") (fun _ => ["/lib/ld.so"]) "/bin/sh" ⟨[], 0, 0⟩ =
      (.ok ["/lib/ld.so"], ⟨[("/bin/sh", ["/lib/ld.so"])], 1, 1⟩) :=
  ⟨(ldlist_memoization (fun _ => PcallRes.osError) (fun _ => []) "/lib/libc.so"
      ⟨[], 0, 0⟩).2.2 (by decide) (by decide) rfl,
   (ldlist_memoization (fun _ => PcallRes.ok "out") (fun _ => ["/lib/ld.so"]) "/bin/sh"
      ⟨[], 0, 0⟩).2.1 (by decide) (by decide) "out" rfl⟩

end Ldlist

namespace Mount

/-! ### Bind-mount execution order (jail.py, Jail.mount)

```
pathlist = sorted(binds.iterkeys(), key=len)
pathlist.sort(key=lambda s: s.count('/'))
for dstpath in pathlist:
    srcpath, bindopts = binds[dstpath]
    if dstpath not in mounts:
        self.subcall('/bin/mount', '--bind', srcpath, dstpath)
    self.subcall('/bin/mount', '-o', ','.join(bindopts), dstpath)
```

Python's `sorted`/`list.sort` are stable; the embedding uses a stable
insertion sort.  The `binds` dict is a list of fresh bind-specs keyed by
destination, `mounts` is the set of destinations already in the mount
table. -/

/-- Stable insertion (the new element goes before the first existing
element with a key not below it; elements inserted later by `foldr`
come earlier in the input). -/
def insertLE {α : Type} (key : α → Nat) (x : α) : List α → List α
  | [] => [x]
  | y :: ys => if key x ≤ key y then x :: y :: ys else y :: insertLE key x ys

/-- A stable sort by an integer key (models Python `sorted(key=...)`). -/
def stableSortBy {α : Type} (key : α → Nat) (l : List α) : List α :=
  l.foldr (insertLE key) []

/-- Stable insertion by a lexicographic pair key (used to express the
claim's reading of the order: primary length, secondary slash count). -/
def insertLexLE {α : Type} (key : α → Nat × Nat) (x : α) : List α → List α
  | [] => [x]
  | y :: ys =>
    if (key x).1 < (key y).1 ∨ ((key x).1 = (key y).1 ∧ (key x).2 ≤ (key y).2) then
      x :: y :: ys
    else y :: insertLexLE key x ys

def sortByLex {α : Type} (key : α → Nat × Nat) (l : List α) : List α :=
  l.foldr (insertLexLE key) []

structure BindSpec where
  dst : String
  src : String
  opts : List String
deriving DecidableEq, Repr

def pathLen (b : BindSpec) : Nat := b.dst.length

def slashCount (b : BindSpec) : Nat := pyCount b.dst '/'

/-- The order the code processes fresh bind-specs in: a stable sort by
destination length followed by a stable sort by `/`-count — so the
`/`-count is the primary key and the length only breaks its ties. -/
def mountOrder (binds : List BindSpec) : List BindSpec :=
  stableSortBy slashCount (stableSortBy pathLen binds)

/-- The order claim C9 describes: "sorting their destination mount paths
by path length, then by '/'-count" — path length as the primary key,
`/`-count as the tiebreaker. -/
def claimOrder (binds : List BindSpec) : List BindSpec :=
  sortByLex (fun b => (pathLen b, slashCount b)) binds

inductive MountCmd where
  | bindMount (src dst : String)
  | remountOpts (opts : List String) (dst : String)
deriving DecidableEq, Repr

/-- The `/bin/mount` invocations the loop issues, in order. -/
def mountCommands (binds : List BindSpec) (mounted : List String) : List MountCmd :=
  (mountOrder binds).flatMap fun b =>
    (if b.dst ∈ mounted then [] else [MountCmd.bindMount b.src b.dst]) ++
      [MountCmd.remountOpts b.opts b.dst]

/-- Counterexample to claim C9 as stated: with destinations `/a/b`
(length 4, two slashes) and `/abcde` (length 6, one slash), sorting by
length first would process `/a/b` first, but the code's second sort makes
the `/`-count primary, so `/abcde` is processed first. -/
theorem mount_order_counterexample :
    mountOrder [⟨"/a/b", "/x", []⟩, ⟨"/abcde", "/y", []⟩] =
      [⟨"/abcde", "/y", []⟩, ⟨"/a/b", "/x", []⟩] ∧
    claimOrder [⟨"/a/b", "/x", []⟩, ⟨"/abcde", "/y", []⟩] =
      [⟨"/a/b", "/x", []⟩, ⟨"/abcde", "/y", []⟩] ∧
    mountOrder [⟨"/a/b", "/x", []⟩, ⟨"/abcde", "/y", []⟩] ≠
      claimOrder [⟨"/a/b", "/x", []⟩, ⟨"/abcde", "/y", []⟩] := by
  refine ⟨by decide, by decide, by decide⟩

theorem insertLE_perm {α : Type} (key : α → Nat) (x : α) (l : List α) :
    List.Perm (insertLE key x l) (x :: l) := by
  induction l with
  | nil => exact List.Perm.refl _
  | cons y ys ih =>
    by_cases h : key x ≤ key y
    · simp [insertLE, h]
    · simp only [insertLE, if_neg h]
      exact (ih.cons y).trans (List.Perm.swap x y ys)

theorem mem_insertLE {α : Type} (key : α → Nat) (x : α) (l : List α) (z : α) :
    z ∈ insertLE key x l ↔ z = x ∨ z ∈ l := by
  rw [(insertLE_perm key x l).mem_iff]
  simp

theorem stableSortBy_perm {α : Type} (key : α → Nat) (l : List α) :
    List.Perm (stableSortBy key l) l := by
  induction l with
  | nil => exact List.Perm.refl _
  | cons x xs ih =>
    exact (insertLE_perm key x (stableSortBy key xs)).trans (ih.cons x)

theorem pairwise_insertLE {α : Type} (key : α → Nat) (x : α) :
    ∀ l : List α, l.Pairwise (fun a b => key a ≤ key b) →
      (insertLE key x l).Pairwise (fun a b => key a ≤ key b) := by
  intro l
  induction l with
  | nil => intro _; simp [insertLE]
  | cons y ys ih =>
    intro hp
    rcases List.pairwise_cons.mp hp with ⟨hy, hys⟩
    by_cases h : key x ≤ key y
    · simp only [insertLE, if_pos h]
      refine List.pairwise_cons.mpr ⟨?_, hp⟩
      intro z hz
      rcases List.mem_cons.mp hz with hz | hz
      · exact hz ▸ h
      · exact le_trans h (hy z hz)
    · simp only [insertLE, if_neg h]
      refine List.pairwise_cons.mpr ⟨?_, ih hys⟩
      intro z hz
      rcases (mem_insertLE key x ys z).mp hz with hz | hz
      · exact hz ▸ le_of_not_le h
      · exact hy z hz

theorem stableSortBy_sorted {α : Type} (key : α → Nat) (l : List α) :
    (stableSortBy key l).Pairwise (fun a b => key a ≤ key b) := by
  induction l with
  | nil => simp [stableSortBy]
  | cons x xs ih => exact pairwise_insertLE key x _ ih

/-- The order the code actually produces: primary `/`-count, secondary
path length. -/
def bySlashThenLen (a b : BindSpec) : Prop :=
  slashCount a < slashCount b ∨ (slashCount a = slashCount b ∧ pathLen a ≤ pathLen b)

theorem insert_slash_lift (x : BindSpec) :
    ∀ l : List BindSpec, l.Pairwise bySlashThenLen →
      (∀ z ∈ l, pathLen x ≤ pathLen z) →
      (insertLE slashCount x l).Pairwise bySlashThenLen := by
  intro l
  induction l with
  | nil => intro _ _; simp [insertLE, List.pairwise_cons]
  | cons y ys ih =>
    intro hp hlen
    rcases List.pairwise_cons.mp hp with ⟨hy, hys⟩
    by_cases h : slashCount x ≤ slashCount y
    · simp only [insertLE, if_pos h]
      refine List.pairwise_cons.mpr ⟨?_, hp⟩
      intro z hz
      rcases List.mem_cons.mp hz with hz | hz
      · rw [hz]
        rcases lt_or_eq_of_le h with hlt | heq
        · exact Or.inl hlt
        · exact Or.inr ⟨heq, hlen y (List.mem_cons_self y ys)⟩
      · rcases hy z hz with hlt | ⟨heq, _⟩
        · rcases lt_or_eq_of_le h with hlt2 | heq2
          · exact Or.inl (lt_trans hlt2 hlt)
          · exact Or.inl (heq2 ▸ hlt)
        · rcases lt_or_eq_of_le h with hlt2 | heq2
          · exact Or.inl (heq ▸ hlt2)
          · exact Or.inr ⟨heq2.trans heq, hlen z (List.mem_cons_of_mem y hz)⟩
    · simp only [insertLE, if_neg h]
      refine List.pairwise_cons.mpr
        ⟨?_, ih hys (fun z hz => hlen z (List.mem_cons_of_mem y hz))⟩
      intro z hz
      rcases (mem_insertLE slashCount x ys z).mp hz with hz | hz
      · exact hz ▸ Or.inl (lt_of_not_le h)
      · exact hy z hz

theorem sort_slash_lift :
    ∀ l : List BindSpec, l.Pairwise (fun a b => pathLen a ≤ pathLen b) →
      (stableSortBy slashCount l).Pairwise bySlashThenLen := by
  intro l
  induction l with
  | nil => intro _; simp [stableSortBy]
  | cons x xs ih =>
    intro hp
    rcases List.pairwise_cons.mp hp with ⟨hx, hxs⟩
    refine insert_slash_lift x _ (ih hxs) ?_
    intro z hz
    exact hx z ((stableSortBy_perm slashCount xs).mem_iff.mp hz)

theorem flatMap_infix {β γ : Type} (f : β → List γ) :
    ∀ (l : List β) (x : β), x ∈ l → f x <:+: l.flatMap f := by
  intro l
  induction l with
  | nil => intro x hx; cases hx
  | cons y ys ih =>
    intro x hx
    rcases List.mem_cons.mp hx with hx | hx
    · subst hx
      exact ⟨[], ys.flatMap f, by simp [List.flatMap_cons]⟩
    · obtain ⟨s, t, hst⟩ := ih x hx
      exact ⟨f y ++ s, t, by simp [List.flatMap_cons, ← hst]⟩

/-- Claim C9 (amended): `--mount` processes the fresh bind-specs in the
order obtained by a stable sort by destination length followed by a
stable sort by `/`-count — that is, ordered by `/`-count with path length
breaking ties (a permutation of the specs) — and for each spec in that
order issues `/bin/mount --bind src dst` exactly when `dst` is not
already in the mount table, immediately followed by
`/bin/mount -o <opts> dst`. -/
theorem mount_processing_order (binds : List BindSpec) (mounted : List String) :
    List.Perm (mountOrder binds) binds ∧
    (mountOrder binds).Pairwise bySlashThenLen ∧
    (∀ b ∈ binds, b.dst ∉ mounted →
      [MountCmd.bindMount b.src b.dst, MountCmd.remountOpts b.opts b.dst] <:+:
        mountCommands binds mounted) ∧
    (∀ b ∈ binds, MountCmd.remountOpts b.opts b.dst ∈ mountCommands binds mounted) ∧
    (∀ dst ∈ mounted, ∀ src2, MountCmd.bindMount src2 dst ∉ mountCommands binds mounted) := by
  refine ⟨?_, ?_, ?_, ?_, ?_⟩
  · exact (stableSortBy_perm slashCount _).trans (stableSortBy_perm pathLen binds)
  · exact sort_slash_lift _ (stableSortBy_sorted pathLen binds)
  · intro b hb hnm
    have hb2 : b ∈ mountOrder binds :=
      ((stableSortBy_perm slashCount _).trans (stableSortBy_perm pathLen binds)).mem_iff.mpr hb
    have hseg := flatMap_infix
      (fun b : BindSpec =>
        (if b.dst ∈ mounted then [] else [MountCmd.bindMount b.src b.dst]) ++
          [MountCmd.remountOpts b.opts b.dst])
      (mountOrder binds) b hb2
    simp only [mountCommands]
    simpa [if_neg hnm] using hseg
  · intro b hb
    have hb2 : b ∈ mountOrder binds :=
      ((stableSortBy_perm slashCount _).trans (stableSortBy_perm pathLen binds)).mem_iff.mpr hb
    refine List.mem_flatMap.mpr ⟨b, hb2, ?_⟩
    simp
  · intro dst hdst src2 hmem
    rcases List.mem_flatMap.mp hmem with ⟨c, _, hx⟩
    rcases List.mem_append.mp hx with hx | hx
    · by_cases hcm : c.dst ∈ mounted
      · rw [if_pos hcm] at hx
        cases hx
      · rw [if_neg hcm] at hx
        have hx2 := List.mem_singleton.mp hx
        have hcd : c.dst = dst := (MountCmd.bindMount.inj hx2).2.symm
        exact hcm (hcd ▸ hdst)
    · have hx2 := List.mem_singleton.mp hx
      exact MountCmd.noConfusion hx2

theorem mount_processing_order_witness :
    [MountCmd.bindMount "/x" "/a/b", MountCmd.remountOpts ["ro"] "/a/b"] <:+:
      mountCommands [⟨"/a/b", "/x", ["ro"]⟩] [] :=
  (mount_processing_order [⟨"/a/b", "/x", ["ro"]⟩] []).2.2.1
    ⟨"/a/b", "/x", ["ro"]⟩ (by decide) (by decide)

end Mount
